import Mathlib

/-!
# Verification of the json-sql-builder query compiler

This development embeds the query-to-SQL compiler of the repository in Lean 4
and proves the specified properties of its clause compilers.

The repository ships the MySQL/ANSI operator test-suites and the postgreSQL
`create-table` helper module as source.  The core `$select` clause compilers
(`lib/...` select/where/sort/limit handlers) are not part of the source
snapshot, so they are modelled here from the specification's description of
their behaviour (marked `Modelled from the spec:` on each definition); the
postgreSQL helpers are translated directly from
`src/lib/postgreSQL/create-table.js`.

A compiled query is represented as a list of fragments (`Frag`): literal SQL
text and positional placeholders carrying their bound value.  The final
`SQLQuery` is obtained by rendering every placeholder as `?` and collecting
the bound values in emission order, exactly the contract of `lib/sqlquery`.
-/

namespace JsonSqlBuilder

/-- A scalar value bound as a query parameter (string, number or boolean). -/
inductive Val where
  | str (s : String)
  | num (n : Int)
  | bool (b : Bool)
deriving DecidableEq, Repr

/-- A fragment of compiled SQL: literal text, or one positional placeholder
together with the value bound for it. -/
inductive Frag where
  | lit (s : String)
  | ph (v : Val)
deriving DecidableEq, Repr

/-- Render one fragment: a placeholder prints as the token `?`. -/
def fragStr : Frag → String
  | .lit s => s
  | .ph _ => "?"

/-- Render a fragment list to the final SQL text. -/
def sqlOf (fs : List Frag) : String :=
  fs.foldr (fun f acc => fragStr f ++ acc) ""

/-- The bound values of a fragment list, in emission order. -/
def valuesOf (fs : List Frag) : List Val :=
  fs.filterMap fun f => match f with
    | .ph v => some v
    | .lit _ => none

/-- Number of placeholder tokens occurring in an SQL string. -/
def countPh (s : String) : Nat :=
  s.data.count '?'

/-- A string is placeholder-free when it contains no `?` character. -/
def noQ (s : String) : Prop := '?' ∉ s.data

instance (s : String) : Decidable (noQ s) := by
  unfold noQ
  infer_instance

/-- Boolean (decidable) form of `noQ`. -/
def noQb (s : String) : Bool := decide (noQ s)

/-- All literal fragments of the list are placeholder-free, so every `?` of
the rendered SQL comes from a placeholder fragment. -/
def litsOk (fs : List Frag) : Prop :=
  ∀ s, Frag.lit s ∈ fs → noQ s

/-- Interleave the segments of a string with the placeholder token:
`interQ [a, b, c] = a ++ "?" ++ b ++ "?" ++ c`. -/
def interQ : List String → String
  | [] => ""
  | [s] => s
  | s :: rest => s ++ "?" ++ interQ rest

/-- The placeholder-free segments of a fragment list: the literal text found
before, between and after its placeholders. -/
def segsOf : List Frag → List String
  | [] => [""]
  | .lit s :: fs =>
      match segsOf fs with
      | [] => [s]
      | t :: ts => (s ++ t) :: ts
  | .ph _ :: fs => "" :: segsOf fs

/-- The compiled output: statement text plus its ordered bind values
(`lib/sqlquery`). -/
structure SQLQuery where
  sql : String
  values : List Val
deriving DecidableEq, Repr

theorem sqlOf_nil : sqlOf [] = "" := rfl

theorem sqlOf_cons (f : Frag) (fs : List Frag) :
    sqlOf (f :: fs) = fragStr f ++ sqlOf fs := rfl

theorem sqlOf_append (a b : List Frag) :
    sqlOf (a ++ b) = sqlOf a ++ sqlOf b := by
  induction a with
  | nil => simp [sqlOf_nil, sqlOf]
  | cons f fs ih =>
      simp only [List.cons_append, sqlOf_cons, ih, String.append_assoc]

theorem valuesOf_nil : valuesOf [] = [] := rfl

theorem valuesOf_cons (f : Frag) (fs : List Frag) :
    valuesOf (f :: fs) =
      (match f with | .ph v => [v] | .lit _ => []) ++ valuesOf fs := by
  cases f <;> simp [valuesOf, List.filterMap_cons]

theorem valuesOf_append (a b : List Frag) :
    valuesOf (a ++ b) = valuesOf a ++ valuesOf b := by
  simp [valuesOf, List.filterMap_append]

theorem countPh_append (s t : String) :
    countPh (s ++ t) = countPh s + countPh t := by
  simp [countPh, String.data_append, List.count_append]

theorem litsOk_nil : litsOk [] := by
  intro s h
  simp at h

theorem litsOk_append {a b : List Frag} (ha : litsOk a) (hb : litsOk b) :
    litsOk (a ++ b) := by
  intro s h
  rcases List.mem_append.mp h with h' | h'
  · exact ha s h'
  · exact hb s h'

theorem litsOk_append_iff (a b : List Frag) :
    litsOk (a ++ b) ↔ litsOk a ∧ litsOk b := by
  constructor
  · intro h
    exact ⟨fun s hs => h s (List.mem_append.mpr (Or.inl hs)),
           fun s hs => h s (List.mem_append.mpr (Or.inr hs))⟩
  · intro ⟨ha, hb⟩
    exact litsOk_append ha hb

theorem litsOk_cons_iff (f : Frag) (fs : List Frag) :
    litsOk (f :: fs) ↔ (∀ s, f = Frag.lit s → noQ s) ∧ litsOk fs := by
  constructor
  · intro h
    refine ⟨fun s hf => h s (hf ▸ List.mem_cons_self _ _), fun s hs => h s (List.mem_cons_of_mem _ hs)⟩
  · intro ⟨hf, hfs⟩ s hs
    rcases List.mem_cons.mp hs with h' | h'
    · exact hf s h'.symm
    · exact hfs s h'

/-- With placeholder-free literals, the rendered SQL contains exactly one `?`
per bound value. -/
theorem countPh_sqlOf {fs : List Frag} (h : litsOk fs) :
    countPh (sqlOf fs) = (valuesOf fs).length := by
  induction fs with
  | nil => simp [sqlOf_nil, valuesOf_nil, countPh]
  | cons f rest ih =>
      have hrest : litsOk rest := ((litsOk_cons_iff f rest).mp h).2
      rw [sqlOf_cons, countPh_append, valuesOf_cons f rest]
      cases f with
      | lit s =>
          have hs : noQ s := ((litsOk_cons_iff _ rest).mp h).1 s rfl
          have : countPh (fragStr (Frag.lit s)) = 0 := by
            simpa [fragStr, countPh] using List.count_eq_zero.mpr hs
          simp [this, ih hrest]
      | ph v =>
          have : countPh (fragStr (Frag.ph v)) = 1 := rfl
          simp [this, ih hrest, Nat.add_comm]

theorem segsOf_ne_nil (fs : List Frag) : segsOf fs ≠ [] := by
  induction fs with
  | nil => simp [segsOf]
  | cons f rest ih =>
      cases f with
      | lit s =>
          simp only [segsOf]
          cases hrest : segsOf rest with
          | nil => simp
          | cons t ts => simp
      | ph v => simp [segsOf]

theorem segsOf_length (fs : List Frag) :
    (segsOf fs).length = (valuesOf fs).length + 1 := by
  induction fs with
  | nil => simp [segsOf, valuesOf_nil]
  | cons f rest ih =>
      cases f with
      | lit s =>
          simp only [segsOf]
          cases hrest : segsOf rest with
          | nil => exact absurd hrest (segsOf_ne_nil rest)
          | cons t ts =>
              rw [hrest] at ih
              simp only [List.length_cons] at ih ⊢
              rw [valuesOf_cons]
              simpa using ih
      | ph v =>
          rw [valuesOf_cons]
          simp only [segsOf, List.length_cons, ih]
          simp

theorem sqlOf_eq_interQ (fs : List Frag) :
    sqlOf fs = interQ (segsOf fs) := by
  induction fs with
  | nil => simp [sqlOf_nil, segsOf, interQ]
  | cons f rest ih =>
      cases f with
      | lit s =>
          rw [sqlOf_cons]
          simp only [segsOf]
          cases hrest : segsOf rest with
          | nil => exact absurd hrest (segsOf_ne_nil rest)
          | cons t ts =>
              rw [hrest] at ih
              cases ts with
              | nil => simp [interQ, fragStr, ih]
              | cons u us => simp [interQ, fragStr, ih, String.append_assoc]
      | ph v =>
          rw [sqlOf_cons]
          cases hrest : segsOf rest with
          | nil => exact absurd hrest (segsOf_ne_nil rest)
          | cons t ts =>
              rw [hrest] at ih
              simp [segsOf, interQ, fragStr, ih, hrest, String.append_assoc]

theorem segsOf_noQ {fs : List Frag} (h : litsOk fs) :
    ∀ s ∈ segsOf fs, noQ s := by
  induction fs with
  | nil =>
      intro s hs
      simp [segsOf] at hs
      simp [hs, noQ]
  | cons f rest ih =>
      have hrest : litsOk rest := ((litsOk_cons_iff f rest).mp h).2
      cases f with
      | lit s0 =>
          have hs0 : noQ s0 := ((litsOk_cons_iff _ rest).mp h).1 s0 rfl
          intro s hs
          simp only [segsOf] at hs
          cases hrest' : segsOf rest with
          | nil => exact absurd hrest' (segsOf_ne_nil rest)
          | cons t ts =>
              rw [hrest'] at hs
              rcases List.mem_cons.mp hs with h' | h'
              · subst h'
                have ht : noQ t := ih hrest t (hrest' ▸ List.mem_cons_self _ _)
                simp only [noQ, String.data_append, List.mem_append]
                rintro (hc | hc)
                · exact hs0 hc
                · exact ht hc
              · exact ih hrest s (hrest' ▸ List.mem_cons_of_mem _ h')
      | ph v =>
          intro s hs
          simp only [segsOf] at hs
          rcases List.mem_cons.mp hs with h' | h'
          · subst h'
            simp [noQ]
          · exact ih hrest s h'

/-! ## Identifier quoting -/

/-- The identifier quote character of the MySQL-style dialect (a backtick). -/
def qChar : Char := Char.ofNat 96

/-- Double every embedded quote character of an identifier. -/
def escapeQuote (s : String) : String :=
  String.mk (s.data.flatMap fun c => if c = qChar then [qChar, qChar] else [c])

/-- Modelled from the spec: the Quoter of the dialect (`quoteIdentifier`,
missing from the source snapshot, described in spec §4.4): wraps an
identifier in the dialect's quote character, doubling embedded quote
characters, and never quotes the wildcard `*`. -/
def quote (name : String) : String :=
  if name = "*" then "*" else "`" ++ escapeQuote name ++ "`"

theorem escapeQuote_noQ {s : String} (h : noQ s) : noQ (escapeQuote s) := by
  simp only [noQ, escapeQuote, String.mk, List.mem_flatMap] at *
  rintro ⟨c, hc, hq⟩
  by_cases hcq : c = qChar
  · rw [if_pos hcq] at hq
    simp at hq
    exact absurd hq (by decide)
  · rw [if_neg hcq] at hq
    simp at hq
    exact h (hq ▸ hc)

theorem quote_noQ {s : String} (h : noQ s) : noQ (quote s) := by
  unfold quote
  by_cases hs : s = "*"
  · rw [hs]
    decide
  · rw [if_neg hs]
    have hesc := escapeQuote_noQ h
    simp only [noQ, String.data_append, List.mem_append] at hesc ⊢
    rintro ((hc | hc) | hc)
    · exact absurd hc (by decide)
    · exact hesc hc
    · exact absurd hc (by decide)

/-- Join strings with a separator (the compiler's `join(', ')`). -/
def sepJoin (sep : String) : List String → String
  | [] => ""
  | [s] => s
  | s :: rest => s ++ sep ++ sepJoin sep rest

theorem sepJoin_noQ {sep : String} (hsep : noQ sep) :
    ∀ {l : List String}, (∀ s ∈ l, noQ s) → noQ (sepJoin sep l) := by
  intro l
  induction l with
  | nil =>
      intro _
      simp [sepJoin, noQ]
  | cons s rest ih =>
      intro h
      cases rest with
      | nil => exact h s (List.mem_cons_self _ _)
      | cons t ts =>
          have hs : noQ s := h s (List.mem_cons_self _ _)
          have hrest : noQ (sepJoin sep (t :: ts)) :=
            ih fun x hx => h x (List.mem_cons_of_mem _ hx)
          simp only [sepJoin, noQ, String.data_append, List.mem_append]
          rintro (⟨hc | hc⟩ | hc)
          · exact hs hc
          · exact hsep hc
          · exact hrest hc

/-- Join fragment lists with a literal separator fragment. -/
def joinFragsSep (sep : String) : List (List Frag) → List Frag
  | [] => []
  | [fs] => fs
  | fs :: rest => fs ++ [Frag.lit sep] ++ joinFragsSep sep rest

theorem sqlOf_joinFragsSep (sep : String) (l : List (List Frag)) :
    sqlOf (joinFragsSep sep l) = sepJoin sep (l.map sqlOf) := by
  induction l with
  | nil => simp [joinFragsSep, sepJoin, sqlOf_nil]
  | cons fs rest ih =>
      cases rest with
      | nil => simp [joinFragsSep, sepJoin]
      | cons gs rest' =>
          simp only [joinFragsSep, List.map_cons, sepJoin, sqlOf_append, ih,
            sqlOf_cons, sqlOf_nil, fragStr, String.append_assoc,
            String.append_empty]

theorem valuesOf_joinFragsSep (sep : String) (l : List (List Frag)) :
    valuesOf (joinFragsSep sep l) = (l.map valuesOf).flatten := by
  induction l with
  | nil => simp [joinFragsSep, valuesOf_nil]
  | cons fs rest ih =>
      cases rest with
      | nil => simp [joinFragsSep, valuesOf]
      | cons gs rest' =>
          simp only [joinFragsSep, List.map_cons, List.flatten_cons,
            valuesOf_append, ih]
          simp [valuesOf]

theorem litsOk_joinFragsSep {sep : String} (hsep : noQ sep)
    {l : List (List Frag)} (h : ∀ fs ∈ l, litsOk fs) :
    litsOk (joinFragsSep sep l) := by
  induction l with
  | nil => exact litsOk_nil
  | cons fs rest ih =>
      cases rest with
      | nil =>
          simpa [joinFragsSep] using h fs (List.mem_cons_self _ _)
      | cons gs rest' =>
          have h1 : litsOk fs := h fs (List.mem_cons_self _ _)
          have h2 : litsOk (joinFragsSep sep (gs :: rest')) :=
            ih fun x hx => h x (List.mem_cons_of_mem _ hx)
          refine litsOk_append (litsOk_append h1 ?_) h2
          intro s hs
          simp at hs
          exact hs ▸ hsep

/-! ## Boolean filter (`$where`, `$and`, `$or`, comparison operators) -/

/-- A comparison operator usable in a per-column spec (`$eq`, `$ne`, …). -/
inductive CmpOp where
  | eq | ne | gt | gte | lt | lte
deriving DecidableEq, Repr

/-- The SQL symbol of each comparison operator. -/
def cmpSym : CmpOp → String
  | .eq => "="
  | .ne => "!="
  | .gt => ">"
  | .gte => ">="
  | .lt => "<"
  | .lte => "<="

/-- A boolean filter expression: a plain `{col: value}` pair, a
`{col: {$op: value}}` comparison, or an `$and`/`$or` combinator over a
list of sub-clauses. -/
inductive Cond where
  | pair (col : String) (v : Val)
  | cmp (col : String) (o : CmpOp) (v : Val)
  | and (cs : List Cond)
  | or (cs : List Cond)

/-- The two combinator kinds. -/
inductive CombKind where
  | andK | orK
deriving DecidableEq, Repr

/-- The join separator of each combinator kind. -/
def sepOf : CombKind → String
  | .andK => " AND "
  | .orK => " OR "

mutual

/-- Modelled from the spec: the boolean filter compiler (`$where` handler and
the nested `$and`/`$or` combinators, missing from the source snapshot,
described in spec §4.2): a plain `{col: value}` pair compiles to the quoted
column followed by ` = ` and a bound placeholder; `{col: {$op: value}}`
compiles to the column, the operator's SQL symbol and a bound placeholder;
a combinator compiles its sub-clauses in list order joined by its separator,
and is parenthesized exactly when it sits inside a combinator of the other
kind. -/
def condFrags : Cond → Option CombKind → List Frag
  | .pair col v, _ => [.lit (quote col ++ " = "), .ph v]
  | .cmp col o v, _ => [.lit (quote col ++ " " ++ cmpSym o ++ " "), .ph v]
  | .and cs, parent =>
      if parent = some CombKind.orK then
        [Frag.lit "("] ++ condListFrags cs .andK ++ [Frag.lit ")"]
      else condListFrags cs .andK
  | .or cs, parent =>
      if parent = some CombKind.andK then
        [Frag.lit "("] ++ condListFrags cs .orK ++ [Frag.lit ")"]
      else condListFrags cs .orK

/-- Compile a combinator's sub-clause list, joining with the combinator's
separator, each sub-clause compiled with the combinator as its parent. -/
def condListFrags : List Cond → CombKind → List Frag
  | [], _ => []
  | [c], k => condFrags c (some k)
  | c :: rest, k => condFrags c (some k) ++ [Frag.lit (sepOf k)] ++ condListFrags rest k

end

mutual

/-- Every column identifier of the filter is placeholder-free. -/
def condWf : Cond → Bool
  | .pair col _ => noQb col
  | .cmp col _ _ => noQb col
  | .and cs => condListWf cs
  | .or cs => condListWf cs

/-- `condWf` over a sub-clause list. -/
def condListWf : List Cond → Bool
  | [] => true
  | c :: rest => condWf c && condListWf rest

end

theorem sqlOf_condListFrags (cs : List Cond) (k : CombKind) :
    sqlOf (condListFrags cs k) =
      sepJoin (sepOf k) (cs.map fun c => sqlOf (condFrags c (some k))) := by
  induction cs with
  | nil => simp [condListFrags, sepJoin, sqlOf_nil]
  | cons c rest ih =>
      cases rest with
      | nil => simp [condListFrags, sepJoin]
      | cons d rest' =>
          simp only [condListFrags, List.map_cons, sepJoin, sqlOf_append, ih,
            sqlOf_cons, sqlOf_nil, fragStr, String.append_assoc,
            String.append_empty]

theorem valuesOf_condListFrags (cs : List Cond) (k : CombKind) :
    valuesOf (condListFrags cs k) =
      (cs.map fun c => valuesOf (condFrags c (some k))).flatten := by
  induction cs with
  | nil => simp [condListFrags, valuesOf_nil]
  | cons c rest ih =>
      cases rest with
      | nil => simp [condListFrags, valuesOf]
      | cons d rest' =>
          simp only [condListFrags, List.map_cons, List.flatten_cons,
            valuesOf_append, ih]
          simp [valuesOf]

mutual

theorem condFrags_litsOk (c : Cond) (p : Option CombKind)
    (h : condWf c = true) : litsOk (condFrags c p) := by
  cases c with
  | pair col v =>
      intro s hs
      simp [condFrags] at hs
      have hcol : noQ col := of_decide_eq_true (by simpa [condWf, noQb] using h)
      subst hs
      have hq := quote_noQ hcol
      simp only [noQ, String.data_append, List.mem_append]
      rintro (hc | hc)
      · exact hq hc
      · exact absurd hc (by decide)
  | cmp col o v =>
      intro s hs
      simp [condFrags] at hs
      have hcol : noQ col := of_decide_eq_true (by simpa [condWf, noQb] using h)
      subst hs
      have hq := quote_noQ hcol
      simp only [noQ, String.data_append, List.mem_append]
      rintro (((hc | hc) | hc) | hc)
      · exact hq hc
      · exact absurd hc (by decide)
      · cases o <;> exact absurd hc (by decide)
      · exact absurd hc (by decide)
  | and cs =>
      have hcs : condListWf cs = true := by simpa [condWf] using h
      have hinner := condListFrags_litsOk cs .andK hcs
      by_cases hp : p = some CombKind.orK
      · simp only [condFrags, hp, if_pos rfl]
        refine litsOk_append (litsOk_append ?_ hinner) ?_ <;>
          · intro s hs
            simp at hs
            subst hs
            decide
      · simp only [condFrags, if_neg hp]
        exact hinner
  | or cs =>
      have hcs : condListWf cs = true := by simpa [condWf] using h
      have hinner := condListFrags_litsOk cs .orK hcs
      by_cases hp : p = some CombKind.andK
      · simp only [condFrags, hp, if_pos rfl]
        refine litsOk_append (litsOk_append ?_ hinner) ?_ <;>
          · intro s hs
            simp at hs
            subst hs
            decide
      · simp only [condFrags, if_neg hp]
        exact hinner

theorem condListFrags_litsOk (cs : List Cond) (k : CombKind)
    (h : condListWf cs = true) : litsOk (condListFrags cs k) := by
  cases cs with
  | nil => exact litsOk_nil
  | cons c rest =>
      have hc : condWf c = true := by
        simp [condListWf, Bool.and_eq_true] at h
        exact h.1
      have hrest : condListWf rest = true := by
        simp [condListWf, Bool.and_eq_true] at h
        exact h.2
      cases rest with
      | nil =>
          simpa [condListFrags] using condFrags_litsOk c (some k) hc
      | cons d rest' =>
          simp only [condListFrags]
          refine litsOk_append (litsOk_append (condFrags_litsOk c (some k) hc) ?_)
            (condListFrags_litsOk (d :: rest') k hrest)
          intro s hs
          simp at hs
          subst hs
          cases k <;> decide

end

/-! ## Column projection, INTO, GROUP BY, ORDER BY, LIMIT/OFFSET, OUTFILE -/

/-- One entry of `$columns`: a bare column reference, a bound value with an
alias name (`{a: {$val: x}}`), a column with an alias name
(`{col: {$as: a}}`), or an aggregate over an operand with an alias name
(`{a: {$sum: operand}}`). -/
inductive ColumnSpec where
  | col (c : String)
  | val (al : String) (v : Val)
  | aliased (c : String) (al : String)
  | agg (fn : String) (operand : String) (al : String)
deriving DecidableEq, Repr

/-- Modelled from the spec: the column projection compiler (`$columns`
handler, missing from the source snapshot, described in spec §4.2):
`{$val: x}` binds `x` and emits `? AS a`; `{$as: a}` emits
`col AS a` with no binding; an aggregate emits `FUNC(operand) AS a`. -/
def columnFrags : ColumnSpec → List Frag
  | .col c => [.lit (quote c)]
  | .val al v => [.ph v, .lit (" AS " ++ quote al)]
  | .aliased c al => [.lit (quote c ++ " AS " ++ quote al)]
  | .agg fn operand al =>
      [.lit (fn ++ "(" ++ quote operand ++ ") AS " ++ quote al)]

/-- Modelled from the spec: the `$columns` clause; absent `$columns` renders
the wildcard `*`, a list renders each entry joined with `, `. -/
def columnsFrags : Option (List ColumnSpec) → List Frag
  | none => [Frag.lit "*"]
  | some specs => joinFragsSep ", " (specs.map columnFrags)

/-- Identifiers of one column spec are placeholder-free. -/
def columnWf : ColumnSpec → Bool
  | .col c => noQb c
  | .val al _ => noQb al
  | .aliased c al => noQb c && noQb al
  | .agg fn operand al => noQb fn && noQb operand && noQb al

/-- Modelled from the spec: `$into` with a list of session variables emits
`INTO var, var, …` with the items rendered verbatim (not quoted, not
bound). -/
def intoPartFrags : Option (List String) → List Frag
  | none => []
  | some vars => [Frag.lit (" INTO " ++ sepJoin ", " vars)]

/-- Modelled from the spec: `$groupBy` renders `GROUP BY` over the quoted
column list; `$rollup: true` appends the literal ` WITH ROLLUP`, while
`$rollup: false` or an absent `$rollup` appends nothing. -/
def groupPartFrags : Option (List String) → Option Bool → List Frag
  | none, _ => []
  | some cols, r =>
      [Frag.lit (" GROUP BY " ++ sepJoin ", " (cols.map quote) ++
        (if r = some true then " WITH ROLLUP" else ""))]

/-- A normalized sort direction. -/
inductive Dir where
  | asc | desc
deriving DecidableEq, Repr

/-- The direction of one `$sort` entry, as written in the query tree:
a `{$asc: true}`/`{$desc: true}` flag object, a string, or a signed
number. -/
inductive SortVal where
  | ascFlag
  | descFlag
  | str (s : String)
  | num (n : Int)
deriving DecidableEq, Repr

/-- Modelled from the spec: `$sort` direction normalization; all accepted
forms normalize to the same two-valued direction, anything else is a
compile error. -/
def dirOf : SortVal → Except String Dir
  | .ascFlag => .ok .asc
  | .descFlag => .ok .desc
  | .str s =>
      if s = "ASC" then .ok .asc
      else if s = "DESC" then .ok .desc
      else .error "$sort direction must be ASC or DESC"
  | .num n =>
      if n = 1 then .ok .asc
      else if n = -1 then .ok .desc
      else .error "$sort direction number must be 1 or -1"

/-- One `$sort` entry: a bare column, or a column with a direction. -/
inductive SortItem where
  | col (c : String)
  | dir (c : String) (d : SortVal)
deriving DecidableEq, Repr

/-- The rendered keyword of a normalized direction. -/
def dirStr : Dir → String
  | .asc => " ASC"
  | .desc => " DESC"

/-- Modelled from the spec: render one `$sort` entry; a bare column renders
as the quoted column, a directed column appends ` ASC`/` DESC` after
normalization. -/
def sortItemStr : SortItem → Except String String
  | .col c => .ok (quote c)
  | .dir c d => (dirOf d).map fun dd => quote c ++ dirStr dd

/-- Render every `$sort` entry in input order, propagating the first
normalization error. -/
def sortItemsStrs : List SortItem → Except String (List String)
  | [] => .ok []
  | i :: rest =>
      match sortItemStr i, sortItemsStrs rest with
      | .ok s, .ok ss => .ok (s :: ss)
      | .error e, _ => .error e
      | .ok _, .error e => .error e

/-- Modelled from the spec: the `$sort` clause renders
` ORDER BY col dir, …` in input order, binding no values. -/
def sortPartFrags : Option (List SortItem) → Except String (List Frag)
  | none => .ok []
  | some items =>
      (sortItemsStrs items).map fun ss =>
        [Frag.lit (" ORDER BY " ++ sepJoin ", " ss)]

/-- The column of one `$sort` entry. -/
def sortItemCol : SortItem → String
  | .col c => c
  | .dir c _ => c

/-- The operand of `$limit`: a number to bind, or the literal `'ALL'`. -/
inductive LimitVal where
  | num (n : Int)
  | all
deriving DecidableEq, Repr

/-- Modelled from the spec: `$limit` with a number binds it and emits
` LIMIT ?`; the string `'ALL'` emits the MySQL maximum-unsigned-integer
literal with no binding. -/
def limitFrags : LimitVal → List Frag
  | .num n => [Frag.lit " LIMIT ", Frag.ph (.num n)]
  | .all => [Frag.lit " LIMIT 18446744073709551615"]

/-- Modelled from the spec: `$offset` is only valid when `$limit` is present
and always renders after it, binding the offset value after the limit
value. -/
def limitOffsetFrags : Option LimitVal → Option Int → Except String (List Frag)
  | none, none => .ok []
  | none, some _ => .error "$offset is only allowed together with $limit"
  | some l, off =>
      .ok (limitFrags l ++
        (match off with
         | none => []
         | some n => [Frag.lit " OFFSET ", Frag.ph (.num n)]))

/-- The `$outfile` node: the output `$file` and the optional
`$fields`/`$lines` sub-options. -/
structure OutfileSpec where
  file : String
  fieldsTerminatedBy : Option String := none
  fieldsEnclosedBy : Option String := none
  fieldsEscapedBy : Option String := none
  linesTerminatedBy : Option String := none
deriving DecidableEq, Repr

/-- A present sub-option contributes its keyword sequence and one bound
placeholder; an absent one contributes nothing. -/
def optKeyFrags (kw : String) : Option String → List Frag
  | none => []
  | some v => [Frag.lit kw, Frag.ph (.str v)]

/-- Modelled from the spec: `$outfile` emits `INTO OUTFILE ?` with `$file`
bound, then each present sub-option in the fixed order
file → fields.terminatedBy → fields.enclosedBy → fields.escapedBy →
lines.terminatedBy with its keyword sequence and bound value. -/
def outfileFrags (o : OutfileSpec) : List Frag :=
  [Frag.lit "INTO OUTFILE ", Frag.ph (.str o.file)]
    ++ optKeyFrags " FIELDS TERMINATED BY " o.fieldsTerminatedBy
    ++ optKeyFrags " ENCLOSED BY " o.fieldsEnclosedBy
    ++ optKeyFrags " ESCAPED BY " o.fieldsEscapedBy
    ++ optKeyFrags " LINES TERMINATED BY " o.linesTerminatedBy

/-- The `$outfile` clause of a `$select`, separated by one space. -/
def outfilePartFrags : Option OutfileSpec → List Frag
  | none => []
  | some o => [Frag.lit " "] ++ outfileFrags o

/-! ## The `$select` statement and `build()` -/

/-- A `$select` query tree, restricted to the operators covered by this
development.  Field names follow the `$`-keys of the DSL. -/
structure Select where
  calcFoundRows : Bool := false
  distinct : Bool := false
  columns : Option (List ColumnSpec) := none
  intoVars : Option (List String) := none
  table : String
  whereCond : Option Cond := none
  groupBy : Option (List String) := none
  rollup : Option Bool := none
  sortBy : Option (List SortItem) := none
  limit : Option LimitVal := none
  offset : Option Int := none
  outfile : Option OutfileSpec := none

/-- Modelled from the spec: compile a `$select` tree to its fragment list in
clause order `SELECT [SQL_CALC_FOUND_ROWS] [DISTINCT] columns [INTO vars]
FROM table [WHERE …] [GROUP BY … [WITH ROLLUP]] [ORDER BY …] [LIMIT …
[OFFSET …]] [INTO OUTFILE …]`. -/
def selectFrags (q : Select) : Except String (List Frag) :=
  match sortPartFrags q.sortBy, limitOffsetFrags q.limit q.offset with
  | .error e, _ => .error e
  | .ok _, .error e => .error e
  | .ok sortFs, .ok limoffFs => .ok ([Frag.lit "SELECT "]
    ++ (if q.calcFoundRows then [Frag.lit "SQL_CALC_FOUND_ROWS "] else [])
    ++ (if q.distinct then [Frag.lit "DISTINCT "] else [])
    ++ columnsFrags q.columns
    ++ intoPartFrags q.intoVars
    ++ [Frag.lit (" FROM " ++ quote q.table)]
    ++ (match q.whereCond with
        | none => []
        | some c => [Frag.lit " WHERE "] ++ condFrags c none)
    ++ groupPartFrags q.groupBy q.rollup
    ++ sortFs
    ++ limoffFs
    ++ outfilePartFrags q.outfile)

/-- Modelled from the spec: `build()` renders the fragment list to the final
`SQLQuery`: the SQL text with one positional `?` per bound value, and the
values in emission order. -/
def build (q : Select) : Except String SQLQuery :=
  (selectFrags q).map fun fs => ⟨sqlOf fs, valuesOf fs⟩

/-- Well-formedness of a `$select` tree: every identifier and raw
session-variable rendered verbatim into the SQL text is placeholder-free. -/
def selectWf (q : Select) : Bool :=
  noQb q.table
    && (match q.columns with
        | none => true
        | some specs => specs.all columnWf)
    && (match q.intoVars with
        | none => true
        | some vars => vars.all noQb)
    && (match q.whereCond with
        | none => true
        | some c => condWf c)
    && (match q.groupBy with
        | none => true
        | some cols => cols.all noQb)
    && (match q.sortBy with
        | none => true
        | some items => items.all fun i => noQb (sortItemCol i))

/-! ## Placeholder-freeness of every literal the clause compilers emit -/

theorem columnFrags_litsOk {spec : ColumnSpec} (h : columnWf spec = true) :
    litsOk (columnFrags spec) := by
  cases spec with
  | col c =>
      intro s hs
      simp [columnFrags] at hs
      subst hs
      exact quote_noQ (of_decide_eq_true (by simpa [columnWf, noQb] using h))
  | val al v =>
      intro s hs
      simp [columnFrags] at hs
      subst hs
      have hal := quote_noQ (of_decide_eq_true (by simpa [columnWf, noQb] using h))
      simp only [noQ, String.data_append, List.mem_append]
      rintro (hc | hc)
      · exact absurd hc (by decide)
      · exact hal hc
  | aliased c al =>
      intro s hs
      simp [columnFrags] at hs
      subst hs
      simp only [columnWf, Bool.and_eq_true, noQb, decide_eq_true_eq] at h
      have hc' := quote_noQ h.1
      have hal := quote_noQ h.2
      simp only [noQ, String.data_append, List.mem_append]
      rintro ((hc | hc) | hc)
      · exact hc' hc
      · exact absurd hc (by decide)
      · exact hal hc
  | agg fn operand al =>
      intro s hs
      simp [columnFrags] at hs
      subst hs
      simp only [columnWf, Bool.and_eq_true, noQb, decide_eq_true_eq] at h
      have hfn := h.1.1
      have hop := quote_noQ h.1.2
      have hal := quote_noQ h.2
      simp only [noQ, String.data_append, List.mem_append]
      rintro ((((hc | hc) | hc) | hc) | hc)
      · exact hfn hc
      · exact absurd hc (by decide)
      · exact hop hc
      · exact absurd hc (by decide)
      · exact hal hc

theorem columnsFrags_litsOk {cols : Option (List ColumnSpec)}
    (h : (match cols with
          | none => true
          | some specs => specs.all columnWf) = true) :
    litsOk (columnsFrags cols) := by
  cases cols with
  | none =>
      intro s hs
      simp [columnsFrags] at hs
      subst hs
      decide
  | some specs =>
      simp only [List.all_eq_true] at h
      refine litsOk_joinFragsSep (by decide) ?_
      intro fs hfs
      rcases List.mem_map.mp hfs with ⟨spec, hspec, rfl⟩
      exact columnFrags_litsOk (h spec hspec)

theorem intoPartFrags_litsOk {vars : Option (List String)}
    (h : (match vars with
          | none => true
          | some vs => vs.all noQb) = true) :
    litsOk (intoPartFrags vars) := by
  cases vars with
  | none => exact litsOk_nil
  | some vs =>
      intro s hs
      simp [intoPartFrags] at hs
      subst hs
      simp only [List.all_eq_true, noQb, decide_eq_true_eq] at h
      have hjoin : noQ (sepJoin ", " vs) := sepJoin_noQ (by decide) h
      simp only [noQ, String.data_append, List.mem_append]
      rintro (hc | hc)
      · exact absurd hc (by decide)
      · exact hjoin hc

theorem groupPartFrags_litsOk {cols : Option (List String)} {r : Option Bool}
    (h : (match cols with
          | none => true
          | some cs => cs.all noQb) = true) :
    litsOk (groupPartFrags cols r) := by
  cases cols with
  | none => exact litsOk_nil
  | some cs =>
      intro s hs
      simp [groupPartFrags] at hs
      subst hs
      simp only [List.all_eq_true, noQb, decide_eq_true_eq] at h
      have hjoin : noQ (sepJoin ", " (cs.map quote)) := by
        refine sepJoin_noQ (by decide) ?_
        intro x hx
        rcases List.mem_map.mp hx with ⟨c, hc, rfl⟩
        exact quote_noQ (h c hc)
      simp only [noQ, String.data_append, List.mem_append]
      rintro ((hc | hc) | hc)
      · exact absurd hc (by decide)
      · exact hjoin hc
      · rcases r with _ | b
        · simp at hc
        · by_cases hb : b = true
          · subst hb
            rw [if_pos rfl] at hc
            exact absurd hc (by decide)
          · have : (some b = some true) = False := by simp [hb]
            rw [if_neg (by simp [hb])] at hc
            simp at hc

theorem sortItemStr_noQ {i : SortItem} {s : String}
    (hok : sortItemStr i = .ok s) (h : noQ (sortItemCol i)) : noQ s := by
  cases i with
  | col c =>
      simp [sortItemStr] at hok
      subst hok
      exact quote_noQ h
  | dir c d =>
      simp only [sortItemStr, Except.map] at hok
      cases hd : dirOf d with
      | error e => rw [hd] at hok; simp at hok
      | ok dd =>
          rw [hd] at hok
          simp at hok
          subst hok
          have hq := quote_noQ h
          simp only [noQ, String.data_append, List.mem_append]
          rintro (hc | hc)
          · exact hq hc
          · cases dd <;> exact absurd hc (by decide)

theorem sortItemsStrs_noQ {l : List SortItem} {ss : List String}
    (hm : sortItemsStrs l = .ok ss) (h : ∀ i ∈ l, noQ (sortItemCol i)) :
    ∀ s ∈ ss, noQ s := by
  induction l generalizing ss with
  | nil =>
      simp [sortItemsStrs] at hm
      subst hm
      simp
  | cons i rest ih =>
      simp only [sortItemsStrs] at hm
      cases hi : sortItemStr i with
      | error e => rw [hi] at hm; simp at hm
      | ok si =>
          rw [hi] at hm
          cases hrest : sortItemsStrs rest with
          | error e => rw [hrest] at hm; simp at hm
          | ok srest =>
              rw [hrest] at hm
              simp at hm
              subst hm
              intro s hs
              rcases List.mem_cons.mp hs with h' | h'
              · subst h'
                exact sortItemStr_noQ hi (h i (List.mem_cons_self _ _))
              · exact ih hrest (fun j hj => h j (List.mem_cons_of_mem _ hj)) s h'

theorem sortPartFrags_litsOk {items : Option (List SortItem)} {fs : List Frag}
    (h : (match items with
          | none => true
          | some l => l.all fun i => noQb (sortItemCol i)) = true)
    (hok : sortPartFrags items = .ok fs) : litsOk fs := by
  cases items with
  | none =>
      simp [sortPartFrags] at hok
      subst hok
      exact litsOk_nil
  | some l =>
      simp only [sortPartFrags, Except.map] at hok
      cases hm : sortItemsStrs l with
      | error e => rw [hm] at hok; simp at hok
      | ok ss =>
          rw [hm] at hok
          simp at hok
          subst hok
          simp only [List.all_eq_true, noQb, decide_eq_true_eq] at h
          have hss : ∀ s ∈ ss, noQ s := sortItemsStrs_noQ hm h
          intro s hs
          simp at hs
          subst hs
          have hjoin : noQ (sepJoin ", " ss) := sepJoin_noQ (by decide) hss
          simp only [noQ, String.data_append, List.mem_append]
          rintro (hc | hc)
          · exact absurd hc (by decide)
          · exact hjoin hc

theorem limitFrags_litsOk (l : LimitVal) : litsOk (limitFrags l) := by
  intro s hs
  cases l <;> simp [limitFrags] at hs <;> subst hs <;> decide

theorem limitOffsetFrags_litsOk {l : Option LimitVal} {off : Option Int}
    {fs : List Frag} (hok : limitOffsetFrags l off = .ok fs) : litsOk fs := by
  cases l with
  | none =>
      cases off with
      | none => simp [limitOffsetFrags] at hok; subst hok; exact litsOk_nil
      | some n => simp [limitOffsetFrags] at hok
  | some lv =>
      simp [limitOffsetFrags] at hok
      subst hok
      refine litsOk_append (limitFrags_litsOk lv) ?_
      cases off with
      | none => exact litsOk_nil
      | some n =>
          intro s hs
          simp at hs
          subst hs
          decide

theorem optKeyFrags_litsOk {kw : String} (hkw : noQ kw) (x : Option String) :
    litsOk (optKeyFrags kw x) := by
  cases x with
  | none => exact litsOk_nil
  | some v =>
      intro s hs
      simp [optKeyFrags] at hs
      subst hs
      exact hkw

theorem outfileFrags_litsOk (o : OutfileSpec) : litsOk (outfileFrags o) := by
  unfold outfileFrags
  refine litsOk_append (litsOk_append (litsOk_append (litsOk_append ?_
    (optKeyFrags_litsOk (by decide) _)) (optKeyFrags_litsOk (by decide) _))
    (optKeyFrags_litsOk (by decide) _)) (optKeyFrags_litsOk (by decide) _)
  intro s hs
  simp at hs
  subst hs
  decide

theorem outfilePartFrags_litsOk (o : Option OutfileSpec) :
    litsOk (outfilePartFrags o) := by
  cases o with
  | none => exact litsOk_nil
  | some spec =>
      refine litsOk_append ?_ (outfileFrags_litsOk spec)
      intro s hs
      simp [outfilePartFrags] at hs
      subst hs
      decide

theorem selectFrags_litsOk {q : Select} {fs : List Frag}
    (hwf : selectWf q = true) (hok : selectFrags q = .ok fs) : litsOk fs := by
  unfold selectFrags at hok
  cases hsort : sortPartFrags q.sortBy with
  | error e => rw [hsort] at hok; simp at hok
  | ok sortFs =>
      rw [hsort] at hok
      cases hlim : limitOffsetFrags q.limit q.offset with
      | error e => rw [hlim] at hok; simp at hok
      | ok limFs =>
          rw [hlim] at hok
          injection hok with hok
          subst hok
          simp only [selectWf, Bool.and_eq_true] at hwf
          obtain ⟨⟨⟨⟨⟨htable, hcols⟩, hinto⟩, hwhere⟩, hgroup⟩, hsortwf⟩ := hwf
          refine litsOk_append (litsOk_append (litsOk_append (litsOk_append
            (litsOk_append (litsOk_append (litsOk_append (litsOk_append
            (litsOk_append (litsOk_append ?_ ?_) ?_) ?_) ?_) ?_) ?_) ?_) ?_) ?_)
            (outfilePartFrags_litsOk q.outfile)
          · intro s hs
            simp at hs
            subst hs
            decide
          · cases q.calcFoundRows
            · exact litsOk_nil
            · intro s hs
              simp at hs
              subst hs
              decide
          · cases q.distinct
            · exact litsOk_nil
            · intro s hs
              simp at hs
              subst hs
              decide
          · exact columnsFrags_litsOk hcols
          · exact intoPartFrags_litsOk hinto
          · intro s hs
            simp at hs
            subst hs
            have hq := quote_noQ (of_decide_eq_true (by simpa [noQb] using htable))
            simp only [noQ, String.data_append, List.mem_append]
            rintro (hc | hc)
            · exact absurd hc (by decide)
            · exact hq hc
          · cases hwc : q.whereCond with
            | none => exact litsOk_nil
            | some c =>
                rw [hwc] at hwhere
                refine litsOk_append ?_ (condFrags_litsOk c none hwhere)
                intro s hs
                simp at hs
                subst hs
                decide
          · exact groupPartFrags_litsOk hgroup
          · exact sortPartFrags_litsOk hsortwf hsort
          · exact limitOffsetFrags_litsOk hlim

/-- C1: for every tree that compiles, the SQL text has exactly one `?` per
bound value, and reading the placeholders left-to-right interleaves the
placeholder-free segments with the values in order. -/
theorem build_placeholder_invariant (q : Select) (r : SQLQuery)
    (hwf : selectWf q = true) (hok : build q = .ok r) :
    countPh r.sql = r.values.length ∧
      ∃ segList : List String, r.sql = interQ segList ∧
        segList.length = r.values.length + 1 ∧ ∀ s ∈ segList, noQ s := by
  unfold build at hok
  cases hsel : selectFrags q with
  | error e => rw [hsel] at hok; simp [Except.map] at hok
  | ok fs =>
      rw [hsel] at hok
      simp [Except.map] at hok
      subst hok
      have hlits := selectFrags_litsOk hwf hsel
      refine ⟨countPh_sqlOf hlits, segsOf fs, sqlOf_eq_interQ fs, ?_, segsOf_noQ hlits⟩
      simpa using segsOf_length fs

/-! ## Concrete queries from the repository's test-suite -/

/-- The `$outfile` test query of the MySQL suite. -/
def exOutfileQuery : Select :=
  { columns := some [.col "first_name", .col "last_name"],
    table := "people",
    outfile := some { file := "/tmp/people.txt",
                      fieldsTerminatedBy := some ", ",
                      fieldsEnclosedBy := some "\"",
                      fieldsEscapedBy := some "\\",
                      linesTerminatedBy := some "\n" } }

/-- The `$rollup` test query of the MySQL suite, without its `$rollup`
entry. -/
def exRollupQuery : Select :=
  { columns := some [.col "job_title", .agg "SUM" "salary" "total_salary"],
    table := "people",
    groupBy := some ["job_title"] }

/-- The mixed `$and`/`$or` test query of the ANSI suite. -/
def exMixedWhereQuery : Select :=
  { table := "people",
    whereCond := some (.and
      [.pair "first_name" (.str "John"),
       .cmp "last_name" .eq (.str "Doe"),
       .or [.cmp "age" .gt (.num 18), .cmp "gender" .ne (.str "female")]]) }

/-! ## End-to-end checks against the repository's test expectations -/

/-- The `$outfile` test of the MySQL suite compiles to its expected output. -/
theorem exOutfileQuery_compiles :
    build exOutfileQuery = .ok
      ⟨"SELECT `first_name`, `last_name` FROM `people` INTO OUTFILE ? FIELDS TERMINATED BY ? ENCLOSED BY ? ESCAPED BY ? LINES TERMINATED BY ?",
       [.str "/tmp/people.txt", .str ", ", .str "\"", .str "\\", .str "\n"]⟩ := by
  rfl

/-- The mixed `$and`/`$or` test of the ANSI suite compiles to its expected
output: the inner `$or` is parenthesized inside its `$and` parent. -/
theorem exMixedWhereQuery_compiles :
    build exMixedWhereQuery = .ok
      ⟨"SELECT * FROM `people` WHERE `first_name` = ? AND `last_name` = ? AND (`age` > ? OR `gender` != ?)",
       [.str "John", .str "Doe", .num 18, .str "female"]⟩ := by
  rfl

/-! ## The claim theorems -/

/-- C2: in a boolean filter, `{col: v}` compiles to the quoted column
followed by ` = ?` with `v` bound; `{col: {$eq: v}}` compiles to the
identical fragment with the identical binding; and in general
`{col: {$op: v}}` compiles to the column, the operator's SQL symbol and one
bound placeholder. -/
theorem where_pair_cmp_compile (col : String) (v : Val) (p : Option CombKind) :
    sqlOf (condFrags (.pair col v) p) = quote col ++ " = ?" ∧
    valuesOf (condFrags (.pair col v) p) = [v] ∧
    condFrags (.pair col v) p = condFrags (.cmp col .eq v) p ∧
    ∀ o : CmpOp,
      sqlOf (condFrags (.cmp col o v) p) = quote col ++ " " ++ cmpSym o ++ " ?" ∧
      valuesOf (condFrags (.cmp col o v) p) = [v] := by
  refine ⟨?_, ?_, ?_, ?_⟩
  · apply String.ext
    simp [condFrags, sqlOf, fragStr, String.data_append]
  · simp [condFrags, valuesOf]
  · have h : quote col ++ " = " = quote col ++ " " ++ cmpSym CmpOp.eq ++ " " := by
      apply String.ext
      simp [cmpSym, String.data_append]
    simp only [condFrags, h]
  · intro o
    refine ⟨?_, ?_⟩
    · apply String.ext
      cases o <;> simp [condFrags, sqlOf, fragStr, cmpSym, String.data_append]
    · simp [condFrags, valuesOf]

/-- C3: a combinator nested under a combinator of the other kind is wrapped
in parentheses, same-kind nesting adds no parentheses, and sub-clauses are
joined with the parent's separator in list order. -/
theorem combinator_parens (cs : List Cond) :
    sqlOf (condFrags (.or cs) (some .andK)) =
      "(" ++ sepJoin " OR " (cs.map fun c => sqlOf (condFrags c (some .orK))) ++ ")" ∧
    sqlOf (condFrags (.or cs) (some .orK)) =
      sepJoin " OR " (cs.map fun c => sqlOf (condFrags c (some .orK))) ∧
    sqlOf (condFrags (.and cs) (some .orK)) =
      "(" ++ sepJoin " AND " (cs.map fun c => sqlOf (condFrags c (some .andK))) ++ ")" ∧
    sqlOf (condFrags (.and cs) (some .andK)) =
      sepJoin " AND " (cs.map fun c => sqlOf (condFrags c (some .andK))) := by
  refine ⟨?_, ?_, ?_, ?_⟩ <;>
    simp [condFrags, sqlOf_append, sqlOf_condListFrags, sepOf, sqlOf_cons,
      sqlOf_nil, fragStr, String.append_empty, String.append_assoc]

/-- C4: a numeric `$limit` emits `LIMIT ?` with exactly the limit value
bound; `$limit: 'ALL'` emits the MySQL maximum-unsigned-integer literal and
binds nothing. -/
theorem limit_compile (t : String) (n : Int) :
    build { table := t, limit := some (.num n) } =
      .ok ⟨"SELECT * FROM " ++ quote t ++ " LIMIT ?", [.num n]⟩ ∧
    build { table := t, limit := some .all } =
      .ok ⟨"SELECT * FROM " ++ quote t ++ " LIMIT 18446744073709551615", []⟩ := by
  refine ⟨?_, ?_⟩ <;>
  · simp only [build, selectFrags, sortPartFrags, limitOffsetFrags, limitFrags,
      columnsFrags, intoPartFrags, groupPartFrags, outfilePartFrags, Except.map,
      Except.ok.injEq, SQLQuery.mk.injEq]
    refine ⟨?_, ?_⟩
    · apply String.ext
      simp [sqlOf, fragStr, String.data_append]
    · simp [valuesOf]

/-- C5: `$offset` without `$limit` is a compile error; with both present the
output renders `LIMIT ? OFFSET ?` with the limit value bound before the
offset value. -/
theorem offset_requires_limit :
    (∀ (q : Select) (n : Int), q.limit = none → q.offset = some n →
      ∃ e, build q = .error e) ∧
    (∀ (l n : Int) (fs : List Frag),
      limitOffsetFrags (some (.num l)) (some n) = .ok fs →
        sqlOf fs = " LIMIT ? OFFSET ?" ∧ valuesOf fs = [.num l, .num n]) ∧
    (∀ (t : String) (l n : Int),
      build { table := t, limit := some (.num l), offset := some n } =
        .ok ⟨"SELECT * FROM " ++ quote t ++ " LIMIT ? OFFSET ?",
             [.num l, .num n]⟩) := by
  refine ⟨?_, ?_, ?_⟩
  · intro q n hl ho
    unfold build selectFrags
    rw [hl, ho]
    cases hsort : sortPartFrags q.sortBy with
    | error e => exact ⟨e, rfl⟩
    | ok sortFs =>
        simp only [limitOffsetFrags]
        exact ⟨_, rfl⟩
  · intro l n fs hok
    simp only [limitOffsetFrags] at hok
    injection hok with hok
    subst hok
    refine ⟨?_, ?_⟩
    · apply String.ext
      simp [sqlOf, fragStr, limitFrags, String.data_append]
    · simp [valuesOf, limitFrags]
  · intro t l n
    simp only [build, selectFrags, sortPartFrags, limitOffsetFrags, limitFrags,
      columnsFrags, intoPartFrags, groupPartFrags, outfilePartFrags, Except.map,
      Except.ok.injEq, SQLQuery.mk.injEq]
    refine ⟨?_, ?_⟩
    · apply String.ext
      simp [sqlOf, fragStr, String.data_append]
    · simp [valuesOf]

/-- Witness for C5 at the test inputs: `$offset` alone fails, and
`$limit: 50, $offset: 10` renders `LIMIT ? OFFSET ?` binding `[50, 10]`. -/
theorem offset_requires_limit_witness :
    (∃ e, build { table := "people", offset := some 10 } = .error e) ∧
    build { table := "people", limit := some (.num 50), offset := some 10 } =
      .ok ⟨"SELECT * FROM " ++ quote "people" ++ " LIMIT ? OFFSET ?",
           [.num 50, .num 10]⟩ :=
  ⟨offset_requires_limit.1 { table := "people", offset := some 10 } 10 rfl rfl,
   offset_requires_limit.2.2 "people" 50 10⟩

/-- The keyword sequence contributed by one optional `$outfile` sub-option. -/
def optPart (kw : String) : Option String → String
  | none => ""
  | some _ => kw

/-- C6: `$outfile` emits `INTO OUTFILE ?` with `$file` bound, then, only for
each present sub-option in the fixed order file → fields.terminatedBy →
fields.enclosedBy → fields.escapedBy → lines.terminatedBy, its literal
keyword sequence with its value bound; absent sub-options contribute
nothing, keywords included. -/
theorem outfile_compile (o : OutfileSpec) :
    sqlOf (outfileFrags o) =
      "INTO OUTFILE ?" ++ optPart " FIELDS TERMINATED BY ?" o.fieldsTerminatedBy
        ++ optPart " ENCLOSED BY ?" o.fieldsEnclosedBy
        ++ optPart " ESCAPED BY ?" o.fieldsEscapedBy
        ++ optPart " LINES TERMINATED BY ?" o.linesTerminatedBy ∧
    valuesOf (outfileFrags o) =
      Val.str o.file ::
        (o.fieldsTerminatedBy.toList ++ o.fieldsEnclosedBy.toList
          ++ o.fieldsEscapedBy.toList ++ o.linesTerminatedBy.toList).map Val.str := by
  obtain ⟨f, t1, t2, t3, t4⟩ := o
  cases t1 <;> cases t2 <;> cases t3 <;> cases t4 <;>
    refine ⟨?_, by simp [outfileFrags, optKeyFrags, valuesOf]⟩ <;>
    · apply String.ext
      simp [outfileFrags, optKeyFrags, optPart, sqlOf, fragStr, String.data_append]

/-- C7: the three ascending `$sort` forms compile to identical fragments, as
do the three descending forms; the rendered clause binds no values. -/
theorem sort_normalization (col : String) :
    sortItemStr (.dir col .ascFlag) = sortItemStr (.dir col (.str "ASC")) ∧
    sortItemStr (.dir col (.str "ASC")) = sortItemStr (.dir col (.num 1)) ∧
    sortItemStr (.dir col .descFlag) = sortItemStr (.dir col (.str "DESC")) ∧
    sortItemStr (.dir col (.str "DESC")) = sortItemStr (.dir col (.num (-1))) ∧
    ∀ (items : List SortItem) (fs : List Frag),
      sortPartFrags (some items) = .ok fs → valuesOf fs = [] := by
  refine ⟨by simp [sortItemStr, dirOf, Except.map],
          by simp [sortItemStr, dirOf, Except.map],
          by simp [sortItemStr, dirOf, Except.map],
          by simp [sortItemStr, dirOf, Except.map], ?_⟩
  intro items fs hok
  simp only [sortPartFrags, Except.map] at hok
  cases hm : sortItemsStrs items with
  | error e => rw [hm] at hok; simp at hok
  | ok ss =>
      rw [hm] at hok
      simp at hok
      subst hok
      simp [valuesOf]

/-- Witness for C7 at the test column: the six forms normalize pairwise and
the ANSI `$sort` test clause binds no values. -/
theorem sort_normalization_witness :
    sortItemStr (.dir "last_name" .ascFlag) =
      sortItemStr (.dir "last_name" (.str "ASC")) ∧
    valuesOf [Frag.lit " ORDER BY `last_name` ASC, `first_name` DESC"] = [] :=
  ⟨(sort_normalization "last_name").1,
   (sort_normalization "last_name").2.2.2.2
     [.dir "last_name" .ascFlag, .dir "first_name" .descFlag]
     [Frag.lit " ORDER BY `last_name` ASC, `first_name` DESC"] (by rfl)⟩

/-- C8: with `$groupBy` present, `$rollup: true` appends ` WITH ROLLUP`
after the GROUP BY column list, `$rollup: false` compiles identically to
omitting `$rollup`, and the clause binds no values. -/
theorem rollup_compile (q : Select) (cols : List String)
    (hg : q.groupBy = some cols) :
    sqlOf (groupPartFrags (some cols) (some true)) =
      sqlOf (groupPartFrags (some cols) none) ++ " WITH ROLLUP" ∧
    build {q with rollup := some false} = build {q with rollup := none} ∧
    (∀ r : Option Bool, valuesOf (groupPartFrags q.groupBy r) = []) := by
  refine ⟨?_, ?_, ?_⟩
  · apply String.ext
    simp [groupPartFrags, sqlOf, fragStr, String.data_append]
  · have hgrp : ∀ g : Option (List String),
        groupPartFrags g (some false) = groupPartFrags g none := by
      intro g
      cases g <;> simp [groupPartFrags]
    simp only [build, selectFrags, hgrp]
  · intro r
    rw [hg]
    simp [groupPartFrags, valuesOf]

/-- Witness for C8 at the test query: the rollup suffix and the
false/omitted equivalence on the MySQL `$rollup` test tree. -/
theorem rollup_compile_witness :
    sqlOf (groupPartFrags (some ["job_title"]) (some true)) =
      sqlOf (groupPartFrags (some ["job_title"]) none) ++ " WITH ROLLUP" ∧
    build {exRollupQuery with rollup := some false} =
      build {exRollupQuery with rollup := none} :=
  ⟨(rollup_compile exRollupQuery ["job_title"] rfl).1,
   (rollup_compile exRollupQuery ["job_title"] rfl).2.1⟩

/-- C1 as stated is too strong: an identifier containing the placeholder
character compiles successfully, yet the rendered `?` of the quoted
identifier is not a placeholder, so the token count exceeds
`values.length`. -/
theorem build_placeholder_invariant_counterexample :
    build { table := "peo?ple" } =
      .ok ⟨"SELECT * FROM `peo?ple`", []⟩ ∧
    countPh "SELECT * FROM `peo?ple`" ≠ ([] : List Val).length := by
  exact ⟨rfl, by decide⟩

/-- Witness for C1 at the `$outfile` test query: five placeholders, five
values, segments interleaving. -/
theorem build_placeholder_invariant_witness :
    countPh (SQLQuery.mk
      "SELECT `first_name`, `last_name` FROM `people` INTO OUTFILE ? FIELDS TERMINATED BY ? ENCLOSED BY ? ESCAPED BY ? LINES TERMINATED BY ?"
      [.str "/tmp/people.txt", .str ", ", .str "\"", .str "\\", .str "\n"]).sql =
      (SQLQuery.mk
        "SELECT `first_name`, `last_name` FROM `people` INTO OUTFILE ? FIELDS TERMINATED BY ? ENCLOSED BY ? ESCAPED BY ? LINES TERMINATED BY ?"
        [.str "/tmp/people.txt", .str ", ", .str "\"", .str "\\", .str "\n"]).values.length ∧
    ∃ segList : List String,
      (SQLQuery.mk
        "SELECT `first_name`, `last_name` FROM `people` INTO OUTFILE ? FIELDS TERMINATED BY ? ENCLOSED BY ? ESCAPED BY ? LINES TERMINATED BY ?"
        [.str "/tmp/people.txt", .str ", ", .str "\"", .str "\\", .str "\n"]).sql =
        interQ segList ∧
      segList.length =
        (SQLQuery.mk
          "SELECT `first_name`, `last_name` FROM `people` INTO OUTFILE ? FIELDS TERMINATED BY ? ENCLOSED BY ? ESCAPED BY ? LINES TERMINATED BY ?"
          [.str "/tmp/people.txt", .str ", ", .str "\"", .str "\\", .str "\n"]).values.length + 1 ∧
      ∀ s ∈ segList, noQ s :=
  build_placeholder_invariant exOutfileQuery _ (by decide) (by rfl)

/-! ## The postgreSQL `create-table` helpers

Translated directly from `src/lib/postgreSQL/create-table.js`.  A thrown
`Error` is modelled as `Except.error` carrying the message: the throw is
synchronous, aborts the compile, and yields no partial `QueryResult`. -/

/-- A JavaScript value as classified by the lodash predicates the helpers
use (`_.isBoolean`, `_.isString`, `_.isPlainObject`, …). -/
inductive JsVal where
  | bool (b : Bool)
  | num (n : Int)
  | str (s : String)
  | obj (fields : List (String × JsVal))
  | arr (items : List JsVal)

/-- `_.isBoolean` on a `JsVal`. -/
def isBoolVal : JsVal → Bool
  | .bool _ => true
  | _ => false

/-- `_.isString` on a `JsVal`. -/
def isStrVal : JsVal → Bool
  | .str _ => true
  | _ => false

/-- The `$identity` helper of `create-table.js`: `true` yields
`GENERATED ALWAYS AS IDENTITY`, `false` the empty string, the string
`'default'` (truthy) yields `GENERATED BY DEFAULT AS IDENTITY`, anything
else throws. -/
def identityHelper : JsVal → Except String String
  | .bool b => .ok (if b then "GENERATED ALWAYS AS IDENTITY" else "")
  | .str s =>
      if s = "default" then .ok "GENERATED BY DEFAULT AS IDENTITY"
      else .error "$identity must either be a Boolean or String with the value \"default\"."
  | _ => .error "$identity must either be a Boolean or String with the value \"default\"."

/-- The `$collate` helper of `create-table.js`: strings only, returns
`COLLATE ` plus the quoted value. -/
def collateHelper : JsVal → Except String String
  | .str s => .ok ("COLLATE " ++ quote s)
  | _ => .error "$collate must be a String."

/-- The `$unlogged` helper of `create-table.js`: booleans only, `true`
yields `UNLOGGED`, `false` the empty string. -/
def unloggedHelper : JsVal → Except String String
  | .bool b => .ok (if b then "UNLOGGED" else "")
  | _ => .error "$unlogged must always be a Boolean."

/-- The `$oids` helper of `create-table.js`: booleans only, yields
`OIDS = TRUE` or `OIDS = FALSE`. -/
def oidsHelper : JsVal → Except String String
  | .bool b => .ok ("OIDS = " ++ (if b then "TRUE" else "FALSE"))
  | _ => .error "$oids must always be a Boolean."

/-- The `$tablespace` helper of `create-table.js`: strings only, returns
`TABLESPACE ` plus the quoted value. -/
def tablespaceHelper : JsVal → Except String String
  | .str s => .ok ("TABLESPACE " ++ quote s)
  | _ => .error "$tablespace must always be a String."

/-- C9: each helper validates its operand's shape and, on mismatch, fails
with the validation error synchronously — the `Except.error` result carries
no partial output.  `$unlogged` and `$oids` reject every non-boolean
operand; `$tablespace` and `$collate` reject every non-string operand;
`$identity` rejects everything that is neither a boolean nor the string
`'default'`. -/
theorem helpers_validate_operand_shape (v : JsVal) :
    (isBoolVal v = false →
      unloggedHelper v = .error "$unlogged must always be a Boolean." ∧
      oidsHelper v = .error "$oids must always be a Boolean.") ∧
    (isStrVal v = false →
      tablespaceHelper v = .error "$tablespace must always be a String." ∧
      collateHelper v = .error "$collate must be a String.") ∧
    (isBoolVal v = false → (∀ s, v ≠ .str s) →
      identityHelper v =
        .error "$identity must either be a Boolean or String with the value \"default\".") := by
  refine ⟨?_, ?_, ?_⟩
  · intro hb
    cases v <;> simp [isBoolVal] at hb ⊢ <;>
      simp [unloggedHelper, oidsHelper]
  · intro hs
    cases v <;> simp [isStrVal] at hs ⊢ <;>
      simp [tablespaceHelper, collateHelper]
  · intro hb hstr
    cases v with
    | bool b => simp [isBoolVal] at hb
    | str s => exact absurd rfl (hstr s)
    | num n => rfl
    | obj fields => rfl
    | arr items => rfl

/-- Witness for C9 at concrete mismatching operands: a number for the
boolean-only options, a boolean for the string-only options, and a number
for `$identity`. -/
theorem helpers_validate_operand_shape_witness :
    (unloggedHelper (.num 0) = .error "$unlogged must always be a Boolean." ∧
      oidsHelper (.num 0) = .error "$oids must always be a Boolean.") ∧
    (tablespaceHelper (.bool true) = .error "$tablespace must always be a String." ∧
      collateHelper (.bool true) = .error "$collate must be a String.") ∧
    identityHelper (.num 5) =
      .error "$identity must either be a Boolean or String with the value \"default\"." :=
  ⟨(helpers_validate_operand_shape (.num 0)).1 rfl,
   (helpers_validate_operand_shape (.bool true)).2.1 rfl,
   (helpers_validate_operand_shape (.num 5)).2.2 rfl
     (fun _ h => JsVal.noConfusion h)⟩

/-- C10: `$identity` returns `GENERATED ALWAYS AS IDENTITY` for `true`, the
empty string for `false`, `GENERATED BY DEFAULT AS IDENTITY` for exactly
the string `'default'`, and throws for every other operand, every other
string included. -/
theorem identity_helper_cases :
    identityHelper (.bool true) = .ok "GENERATED ALWAYS AS IDENTITY" ∧
    identityHelper (.bool false) = .ok "" ∧
    identityHelper (.str "default") = .ok "GENERATED BY DEFAULT AS IDENTITY" ∧
    (∀ s, s ≠ "default" →
      identityHelper (.str s) =
        .error "$identity must either be a Boolean or String with the value \"default\".") ∧
    (∀ n : Int, identityHelper (.num n) =
      .error "$identity must either be a Boolean or String with the value \"default\".") ∧
    (∀ fields, identityHelper (.obj fields) =
      .error "$identity must either be a Boolean or String with the value \"default\".") ∧
    (∀ items, identityHelper (.arr items) =
      .error "$identity must either be a Boolean or String with the value \"default\".") := by
  refine ⟨rfl, rfl, rfl, ?_, fun n => rfl, fun fields => rfl, fun items => rfl⟩
  intro s hs
  simp [identityHelper, hs]

/-- Witness for C10 at a concrete non-`'default'` string. -/
theorem identity_helper_cases_witness :
    identityHelper (.str "always") =
      .error "$identity must either be a Boolean or String with the value \"default\"." :=
  identity_helper_cases.2.2.2.1 "always" (by decide)

end JsonSqlBuilder
